import Mathlib

/-!
Verification of the pico-usb-audio-loopback-plate-reverb firmware core.

This file gives a shallow embedding, in Lean 4, of the C sources of the
repository (ring buffer, USB transmit-tick clock reconciliation and underrun
padding, the fixed-point Schroeder–Moorer reverb, and the granular
freeze-delay), and proves or refutes the specification's claims about them.

Machine-integer conventions used throughout the embedding:
* C `int16_t` / `int32_t` values are modelled as `Int`.
* An arithmetic right shift `x >> k` of a (two's-complement) signed integer
  is floor division; Lean's `Int` division `/` (Euclidean) agrees with floor
  division for positive divisors, so `x >> 16` is modelled as `x / 65536`.
* An implicit C conversion of a wider value to `int16_t` (two's-complement
  wrap-around) is modelled by `wrap16`.
* The explicit saturating helper `sat16` of the sources is modelled verbatim.
-/

namespace PicoReverb

/-- C `(int16_t)` conversion: two's-complement wrap-around into
`[-32768, 32767]`. -/

def wrap16 (x : Int) : Int := ((x + 32768) % 65536) - 32768

/-- Model of `sat16` from `fx_reverb_rp2040.c` / `fx_granular_rp2040.c`: clamp an
`int32_t` value into the signed 16-bit range. -/

def sat16 (x : Int) : Int :=
  if x > 0x7FFF then 0x7FFF
  else if x < -0x8000 then -0x8000
  else x

/-- The signed 16-bit range predicate (the Q15 container range of the spec). -/

def int16R (x : Int) : Prop := -32768 ≤ x ∧ x ≤ 32767

instance (x : Int) : Decidable (int16R x) := by unfold int16R; infer_instance

/-- The signed 32-bit range predicate (one audio sample container). -/

def int32R (x : Int) : Prop := -2147483648 ≤ x ∧ x ≤ 2147483647

instance (x : Int) : Decidable (int32R x) := by unfold int32R; infer_instance

/-! ## RingBuffer (`src/ringbuffer.c`, `include/ringbuffer.h`)

`RINGBUF_CAPACITY = RINGBUF_FRAMES * AUDIO_FRAME_BYTES / sizeof(int32_t)
                  = 8 * (48 * 2 * 4) / 4 = 768` samples; at most `767` live
samples are storable.  The C struct's `buffer` array is modelled as a total
function `Nat → Int` (the C array is over-allocated; `push`/`pop` only ever
touch indices `< 768`), and the two indices are kept `< 768` by `rb_wrap`.
A failing `push`/`pop` in C returns `false` before any store, leaving the
buffer untouched; the embedding models this by returning `none` (the caller
keeps the unchanged buffer). -/

structure Ringbuffer where
  buffer : Nat → Int
  read : Nat
  write : Nat

/-- Model of `ringbuffer_size`: `(w >= r) ? (w - r) : (CAP - (r - w))`. -/

def ringbuffer_size (rb : Ringbuffer) : Nat :=
  if rb.read ≤ rb.write then rb.write - rb.read else 768 - (rb.read - rb.write)

/-- Model of `ringbuffer_capacity`: `(CAP - 1) - size`. -/

def ringbuffer_capacity (rb : Ringbuffer) : Nat :=
  767 - ringbuffer_size rb

/-- The two `memcpy`s of `ringbuffer_push`: `first = min (CAP - w) n` cells
are written at `w`, the remaining `n - first` cells wrap to the bottom. -/

def pushWrite (buf : Nat → Int) (w : Nat) (src : List Int) : Nat → Int :=
  let n := src.length
  let first := min (768 - w) n
  let buf1 : Nat → Int := fun j =>
    if w ≤ j ∧ j < w + first then src.getD (j - w) 0 else buf j
  fun j => if j < n - first then src.getD (first + j) 0 else buf1 j

/-- Model of `ringbuffer_push`: fail (no mutation) iff `n == 0` or `n > capacity`,
else copy all `n` containers and advance `write` by `n` mod 768. -/

def ringbuffer_push (rb : Ringbuffer) (src : List Int) : Option Ringbuffer :=
  if src.length = 0 ∨ src.length > ringbuffer_capacity rb then none
  else some { buffer := pushWrite rb.buffer rb.write src,
              read := rb.read,
              write := (rb.write + src.length) % 768 }

/-- The two `memcpy`s of `ringbuffer_pop`: `first = min (CAP - r) n` cells are
read at `r`, the remaining `n - first` wrap to the bottom. -/

def popRead (buf : Nat → Int) (r n : Nat) : List Int :=
  let first := min (768 - r) n
  (List.range n).map fun i => if i < first then buf (r + i) else buf (i - first)

/-- Model of `ringbuffer_pop`: fail (no mutation) iff `n == 0` or `n > size`, else
copy all `n` containers out and advance `read` by `n` mod 768. -/

def ringbuffer_pop (rb : Ringbuffer) (n : Nat) : Option (List Int × Ringbuffer) :=
  if n = 0 ∨ n > ringbuffer_size rb then none
  else some (popRead rb.buffer rb.read n,
             { buffer := rb.buffer, read := (rb.read + n) % 768, write := rb.write })

/-- The zero-initialized ring buffer (`static ringbuffer_t ... = {0}`). -/

def rb0 : Ringbuffer := ⟨fun _ => 0, 0, 0⟩

/-- Index sanity: both indices below the capacity (established at
initialization and maintained by `rb_wrap`). -/

def rbInv (rb : Ringbuffer) : Prop := rb.read < 768 ∧ rb.write < 768

instance (rb : Ringbuffer) : Decidable (rbInv rb) := by unfold rbInv; infer_instance

/-- Abstraction: the live samples, oldest first. -/

def absList (rb : Ringbuffer) : List Int :=
  (List.range (ringbuffer_size rb)).map fun i => rb.buffer ((rb.read + i) % 768)

/-- One client operation on a ring buffer. -/

inductive RbOp where
  | push (xs : List Int)
  | pop (n : Nat)

/-- Run a sequence of operations on the concrete ring buffer, requiring every
operation to succeed (this is what "respecting capacity" means operationally);
collect the pop results in order. -/

def runRb : Ringbuffer → List RbOp → Option (List (List Int) × Ringbuffer)
  | rb, [] => some ([], rb)
  | rb, (RbOp.push xs) :: ops =>
    match ringbuffer_push rb xs with
    | none => none
    | some rb' => runRb rb' ops
  | rb, (RbOp.pop n) :: ops =>
    match ringbuffer_pop rb n with
    | none => none
    | some (out, rb') => (runRb rb' ops).map fun p => (out :: p.1, p.2)

/-- Run the same sequence against the ideal FIFO queue (a list, oldest
first), with the capacity discipline of a 768-cell ring (at most 767 live
samples). -/

def runQueue : List Int → List RbOp → Option (List (List Int) × List Int)
  | q, [] => some ([], q)
  | q, (RbOp.push xs) :: ops =>
    if xs.length = 0 ∨ q.length + xs.length > 767 then none
    else runQueue (q ++ xs) ops
  | q, (RbOp.pop n) :: ops =>
    if n = 0 ∨ n > q.length then none
    else (runQueue (q.drop n) ops).map fun p => (q.take n :: p.1, p.2)

/-! ## Clock reconciliation (`src/main.c`, `tud_audio_tx_done_pre_load_cb`)

Each USB SOF tick (cadence `USB_SOF_HZ = 1000`) executes
`frac_acc += current_sampling_rate; frames = frac_acc / 1000; frac_acc %= 1000`.
`frac_acc` is a `uint64_t` that stays `< 1000` after each tick and
`current_sampling_rate` is a `uint16_t`, so no wrap-around is reachable and
`Nat` models the arithmetic exactly. -/

/-- One cadence tick: frames delivered this tick, and the kept remainder. -/

def sofTick (rate acc : Nat) : Nat × Nat :=
  ((acc + rate) / 1000, (acc + rate) % 1000)

/-- Accumulated frames delivered and accumulator value after `T` ticks,
starting from the zero-initialized accumulator (`static uint64_t frac_acc = 0`). -/

def sofRun (rate : Nat) : Nat → Nat × Nat
  | 0 => (0, 0)
  | T + 1 =>
    let p := sofRun rate T
    let t := sofTick rate p.2
    (p.1 + t.1, t.2)

/-! ## Transmit-tick underrun padding (`src/main.c`,
`tud_audio_tx_done_pre_load_cb`)

After the frame count for the tick is fixed, `samples_needed = frames*channels`
samples must be loaded into `scratch_out`.  `to_copy = min(size(tx), needed)`
samples are popped; when short, either the last `channels` popped samples are
repeated frame-wise up to `needed` (if at least one full frame was popped), or
the shortfall is `memset` to zero. -/

/-- The inner `for (ch = 0; ch < channels; ch++)` body of the padding loop:
positions `i..i+c-1` (clipped at `S`) receive the frame at `lfs`. -/

def innerFill (out : Nat → Int) (lfs i S c : Nat) : Nat → Int :=
  fun j => if i ≤ j ∧ j < i + c ∧ j < S then out (lfs + (j - i)) else out j

/-- The outer `for (i = to_copy; i < samples_needed; i += channels)` loop,
fuel-indexed (the C loop performs at most `S` iterations when `c ≥ 1`). -/

def outerFill (fuel : Nat) (out : Nat → Int) (lfs c S i : Nat) : Nat → Int :=
  match fuel with
  | 0 => out
  | fuel + 1 =>
    if i < S then outerFill fuel (innerFill out lfs i S c) lfs c S (i + c) else out

/-- The post-pop padding step of the transmit callback: `popped` samples sit
at the head of `scratch_out` (whose previous contents are `prev`); when
`to_copy < S`, repeat the last frame if `to_copy ≥ channels`, else `memset`
the shortfall to zero. -/

def txPad (popped : List Int) (S c : Nat) (prev : Nat → Int) : Nat → Int :=
  let toCopy := popped.length
  let out : Nat → Int := fun j => if j < toCopy then popped.getD j 0 else prev j
  if toCopy < S then
    if c ≤ toCopy ∧ 0 < toCopy then
      outerFill S out (toCopy - c) c S toCopy
    else
      fun j => if toCopy ≤ j ∧ j < S then 0 else out j
  else out

/-- One whole transmit tick on the output ring buffer: pop
`to_copy = min(size, S)` samples (the C code skips the pop when `to_copy = 0`;
`ringbuffer_pop` likewise refuses `n = 0`, leaving the buffer untouched), then
pad to `S` samples. -/

def txTick (rb : Ringbuffer) (S c : Nat) (prev : Nat → Int) :
    (Nat → Int) × Ringbuffer :=
  match ringbuffer_pop rb (min (ringbuffer_size rb) S) with
  | some (out, rb') => (txPad out S c prev, rb')
  | none => (txPad [] S c prev, rb)

/-! ## Fixed-point reverb (`src/fx_reverb_rp2040.c`)

Q15 constants.  `F32_Q15(x) = (int16_t)(x * 32767.f + 0.5f)` is evaluated in
`float`; the rounded values below are the exact results of that binary32
computation:
`F32_Q15(0.50f) = 16384` (WET/DRY/allpass gain), `F32_Q15(0.40f) = 13107`
(damping), `F32_Q15(1.0f) = 32767`, and the comb output gain table
`{0.62, 0.60, 0.58, 0.55, 0.52, 0.50, 0.48, 0.45} ↦
 {20316, 19660, 19005, 18022, 17039, 16384, 15728, 14745}`.
`F32_Q15(1.50f)`: `1.5f*32767.f + 0.5f = 49151.0f` exceeds `int16_t`; the
float-to-`int16_t` conversion of the C macro is out of range (undefined in
ISO C); the embedding models the ubiquitous two's-complement truncation
`wrap16 49151 = -16385`. -/

def WET_Q15 : Int := 16384

def DRY_Q15 : Int := 16384

def AP_GAIN_Q15 : Int := 16384

def DAMP_Q15 : Int := 13107

def MASTER_GAIN_Q15 : Int := wrap16 49151

/-- Left / right comb delay-length tables (fixed, in samples at 48 kHz). -/

def COMB_DLY_L : Fin 8 → Nat := ![509, 863, 1481, 2521, 4273, 7253, 10007, 15013]

def COMB_DLY_R : Fin 8 → Nat := ![523, 877, 1489, 2531, 4283, 7283, 10037, 15031]

def AP_DLY_L : Fin 4 → Nat := ![142, 396, 1071, 3079]

def AP_DLY_R : Fin 4 → Nat := ![145, 399, 1073, 3081]

/-- Table `comb_gain[]`: `F32_Q15` of `{0.62f, …, 0.45f}`, see above. -/

def comb_gain : Fin 8 → Int := ![20316, 19660, 19005, 18022, 17039, 16384, 15728, 14745]

/-- Model of `to_q15`: saturate the arithmetic right shift of the container. -/

def to_q15 (x : Int) : Int := sat16 (x / 65536)

/-- Model of `from_q15`: `(int32_t)q << 16` (for `q` in `int16_t` range this never
overflows `int32_t`, so plain multiplication models the shift). -/

def from_q15 (q : Int) : Int := q * 65536

/-- Model of `mul_q15`: saturated Q15 product `sat16((a*b) >> 15)`. -/

def mul_q15 (a b : Int) : Int := sat16 ((a * b) / 32768)

/-- Comb filter state (`comb_t`): delay line, its length, cursor, feedback
gain, low-pass memory. -/

structure Comb where
  buf : Nat → Int
  size : Nat
  idx : Nat
  fb : Int
  filt : Int

/-- Allpass filter state (`ap_t`). -/

structure Ap where
  buf : Nat → Int
  size : Nat
  idx : Nat
  g : Int

/-- Value of `fb_term >> 15` before the `(int16_t)` cast in `comb_process`. -/

def combFbRaw (fb d : Int) : Int := (fb * d) / 32768

/-- The damped low-pass blend of `comb_process` before the implicit
`int16_t` store into `c->filt`. -/

def combFiltRaw (filt fbq : Int) : Int :=
  mul_q15 filt (sat16 (32767 - DAMP_Q15)) + mul_q15 fbq DAMP_Q15

/-- Model of `comb_process`: read the delayed value, update the damped feedback
memory, write back `input + filt` saturated, advance the cursor. -/

def comb_process (c : Comb) (x : Int) : Int × Comb :=
  let d := c.buf c.idx
  let fb_q15 := wrap16 (combFbRaw c.fb d)
  let filt' := wrap16 (combFiltRaw c.filt fb_q15)
  let w : Int := x + filt'
  (d, { c with
        buf := fun j => if j = c.idx then sat16 w else c.buf j,
        idx := if c.idx + 1 = c.size then 0 else c.idx + 1,
        filt := filt' })

/-- Model of `ap_process`: `y = sat16(d - x*g)`, store `sat16(x + y*g)`, advance. -/

def ap_process (a : Ap) (x : Int) : Int × Ap :=
  let d := a.buf a.idx
  let y := sat16 (d - mul_q15 x a.g)
  (y, { a with
        buf := fun j => if j = a.idx then sat16 (x + mul_q15 y a.g) else a.buf j,
        idx := if a.idx + 1 = a.size then 0 else a.idx + 1 })

/-- The whole reverb state (`reverb_t` plus the file-static pre-delay
arrays `predL`/`predR`, `PREDELAY_SAMPLES = 960`). -/

structure Reverb where
  L : Fin 8 → Comb
  R : Fin 8 → Comb
  AL : Fin 4 → Ap
  AR : Fin 4 → Ap
  enabled : Bool
  pred_idx : Nat
  predL : Nat → Int
  predR : Nat → Int

/-- The serial allpass chain (`for (k = 0; k < NUM_AP; ++k) wet = ap_process(...)`). -/

def apChain : List (Fin 4) → (Fin 4 → Ap) → Int → Int × (Fin 4 → Ap)
  | [], aps, x => (x, aps)
  | k :: ks, aps, x =>
    let p := ap_process (aps k) x
    apChain ks (fun k' => if k' = k then p.2 else aps k') p.1

/-- One sample through the enabled reverb pipeline (the body of the
`for (i = 0; i < frames; ++i)` loop of `fx_process`).  The comb filters are
mutually independent, so the per-comb updates commute and the `int32_t`
accumulations `sumL`/`sumR` (at most `8·32767` in magnitude, far from
`int32_t` overflow) are modelled as a `Finset` sum. -/

def reverbSample (st : Reverb) (inL inR : Int) : (Int × Int) × Reverb :=
  let dryL := to_q15 inL
  let dryR := to_q15 inR
  let preL := st.predL st.pred_idx
  let preR := st.predR st.pred_idx
  let sumL := ∑ k : Fin 8, mul_q15 (comb_process (st.L k) preL).1 (comb_gain k)
  let sumR := ∑ k : Fin 8, mul_q15 (comb_process (st.R k) preR).1 (comb_gain k)
  let pL := apChain (List.finRange 4) st.AL (sat16 sumL)
  let pR := apChain (List.finRange 4) st.AR (sat16 sumR)
  let mixL := sat16 (mul_q15 dryL DRY_Q15 + mul_q15 pL.1 WET_Q15)
  let mixR := sat16 (mul_q15 dryR DRY_Q15 + mul_q15 pR.1 WET_Q15)
  ((from_q15 (mul_q15 mixL MASTER_GAIN_Q15), from_q15 (mul_q15 mixR MASTER_GAIN_Q15)),
   { st with
     L := fun k => (comb_process (st.L k) preL).2,
     R := fun k => (comb_process (st.R k) preR).2,
     AL := pL.2,
     AR := pR.2,
     predL := fun j => if j = st.pred_idx then dryL else st.predL j,
     predR := fun j => if j = st.pred_idx then dryR else st.predR j,
     pred_idx := if st.pred_idx + 1 = 960 then 0 else st.pred_idx + 1 })

/-- The enabled frame loop of `fx_process` (input/output as interleaved
stereo container pairs). -/

def reverbRun (st : Reverb) : List (Int × Int) → List (Int × Int) × Reverb
  | [] => ([], st)
  | x :: xs =>
    let p := reverbSample st x.1 x.2
    let q := reverbRun p.2 xs
    (p.1 :: q.1, q.2)

/-- Model of `fx_process` of the reverb: when disabled, `memcpy(out, in, frames * 8)`
copies every container bit-for-bit and returns before touching any state;
when enabled, run the pipeline. -/

def fx_process_reverb (st : Reverb) (inp : List (Int × Int)) :
    List (Int × Int) × Reverb :=
  if st.enabled then reverbRun st inp else (inp, st)

/-- The comb feedback gains are computed at init in `float`:
`g = powf(10, -3*dly/48000/T60)` clamped to `0.98f`, then `(int16_t)(g*32767.f
+ 0.5f)`; hence every gain lies in `[0, F32_Q15(0.98f)] = [0, 32112]`.  The
exact values depend on `powf`, so `init_filters` takes them as a parameter
constrained by this predicate. -/

def fbClamped (fb : Fin 8 → Int) : Prop := ∀ k, 0 ≤ fb k ∧ fb k ≤ 32112

/-- Model of `init_filters` (and `fx_init`): zeroed delay lines, cursors at 0,
lengths from the fixed tables, allpass gains `AP_GAIN_Q15`, comb feedback
gains as computed (parameter `fb`), effect enabled; the static pre-delay
arrays are zero-initialized at program start. -/

def init_filters (fb : Fin 8 → Int) : Reverb :=
  { L := fun k => ⟨fun _ => 0, COMB_DLY_L k, 0, fb k, 0⟩,
    R := fun k => ⟨fun _ => 0, COMB_DLY_R k, 0, fb k, 0⟩,
    AL := fun k => ⟨fun _ => 0, AP_DLY_L k, 0, AP_GAIN_Q15⟩,
    AR := fun k => ⟨fun _ => 0, AP_DLY_R k, 0, AP_GAIN_Q15⟩,
    enabled := true,
    pred_idx := 0,
    predL := fun _ => 0,
    predR := fun _ => 0 }

/-- Model of `fx_set_format` of the reverb: `void fx_set_format(uint8_t, uint32_t)
{ /* unused */ }` -- a no-op. -/

def fx_set_format_reverb (st : Reverb) (_bitRate _sr : Nat) : Reverb := st

/-- Model of `fx_set_enable` of the reverb. -/

def fx_set_enable_reverb (st : Reverb) (en : Bool) : Reverb :=
  { st with enabled := en }

/-! ## Granular freeze-delay (`src/fx_granular_rp2040.c`)

`BUFFER_SIZE = 16384`, `NUM_GRAINS = 8`, `GRAIN_FADE = 512`.
`FX_MUL(a,b) = (int16_t)(((int32_t)a * b) >> 15)` -- note: a *wrapping*
`int16_t` cast, unlike the saturating `mul_q15` of the reverb.

`rand()` has no seed strategy in the source (see the spec's open question);
the embedding threads an explicit stream of pseudo-random numbers through the
state: each grain activation consumes one entry, exactly where the C code
calls `rand()`.

The envelope expression `F32_Q15((float)x / GRAIN_FADE)` is computed in
binary32: for `0 ≤ x ≤ 511` the products `x * 32767 < 2^24` are exact, the
division by `512` only shifts the exponent, the `+ 0.5f` stays within the
24-bit mantissa, and the final cast truncates toward zero -- the whole
expression therefore equals the integer `(x * 32767 + 256) / 512` exactly,
which is how `f32q15Frac` models it (outside `[0, 511]` the C cast is out of
the `int16_t` range and undefined; every theorem below stays inside).

C compares the `uint32_t` counter against `int` expressions, which converts
the `int` side to `uint32_t` (two's-complement, modelled by `u32`). -/

/-- Conversion `int` → `uint32_t` (used implicitly by C's mixed
signed/unsigned comparisons in the granular engine). -/

def u32 (x : Int) : Int := x % 4294967296

/-- Model of `FX_MUL`: Q15 product with a wrapping (not saturating) `int16_t` cast. -/

def granFxMul (a b : Int) : Int := wrap16 ((a * b) / 32768)

/-- Exact integer value of `F32_Q15((float)x / GRAIN_FADE)` for
`x ∈ [0, 511]` (see the section comment). -/

def f32q15Frac (x : Int) : Int := (x * 32767 + 256) / 512

/-- The per-grain envelope of `fx_process`: linear fade-in over the first
512 samples, fade-out over the last 512 before `grain_length`, else full
scale `F32_Q15(1.0f) = 32767`. -/

def envQ15 (gl : Int) (c : Nat) : Int :=
  if (c : Int) < 512 then f32q15Frac (c : Int)
  else if (c : Int) > u32 (gl - 512) then f32q15Frac (gl - (c : Int))
  else 32767

/-- One grain (`grain_t`): start position, elapsed-sample counter, active
flag. -/

structure Grain where
  pos : Nat
  counter : Nat
  active : Bool

/-- The whole granular-effect state: the tunable parameters (file statics),
the mono capture buffer and its write cursor, the freeze flag, the 8-slot
grain pool, and the pseudo-random stream standing in for `rand()`. -/

structure Gran where
  grain_length : Int
  grain_density : Int
  wet_mix : Int
  dry_mix : Int
  freeze_enabled : Bool
  buffer : Nat → Int
  write_pos : Nat
  grains : Nat → Grain
  rnd : List Nat

/-- The per-slot body of the grain loop: an active grain is enveloped, read
from the capture buffer at `(pos + counter) mod 16384`, accumulated into the
wet sum, stepped, and deactivated once its counter reaches `grain_length`
(an unsigned comparison); an idle slot is (re)activated at a pseudo-random
offset `write_pos + rand() % (16384 - grain_length)` (mod 16384). -/

def grainSlot (gl : Int) (buffer : Nat → Int) (wp : Nat)
    (g : Grain) (rnd : List Nat) (wet : Int) : Grain × List Nat × Int :=
  if g.active then
    let env := envQ15 gl g.counter
    let read_pos := (g.pos + g.counter) % 16384
    let wet' := wet + granFxMul (buffer read_pos) env
    let c' := g.counter + 1
    if (c' : Int) ≥ u32 gl then (⟨g.pos, c', false⟩, rnd, wet')
    else (⟨g.pos, c', true⟩, rnd, wet')
  else
    let r := rnd.headD 0
    ((⟨(wp + r % (16384 - gl).toNat) % 16384, 0, true⟩ : Grain), rnd.tail, wet)

/-- The `for (j = 0; j < grain_density; j++)` loop (ascending slot order;
a nonpositive density runs zero iterations, mirroring the signed C loop). -/

def grainLoop (gl : Int) (buffer : Nat → Int) (wp : Nat) (d : Nat)
    (gs : Nat → Grain) (rnd : List Nat) : (Nat → Grain) × List Nat × Int :=
  (List.range d).foldl
    (fun acc j =>
      let s := grainSlot gl buffer wp (acc.1 j) acc.2.1 acc.2.2
      (fun j' => if j' = j then s.1 else acc.1 j', s.2.1, s.2.2))
    (gs, rnd, 0)

/-- The raw `int` dry/wet mix sum of `fx_process` (before the implicit
wrapping `int16_t` conversion of `int16_t out_l = FX_MUL(..) + FX_MUL(..)`). -/

def granMixRaw (x dm w wm : Int) : Int := granFxMul x dm + granFxMul w wm

/-- One sample through the granular engine (the body of the frame loop of
`fx_process`): extract the Q15 parts, capture the mono downmix unless
frozen, run the grain pool, saturate the wet sum, mix, and emit the results
left-shifted back into containers. -/

def granStep (st : Gran) (inL inR : Int) : (Int × Int) × Gran :=
  let in_l := wrap16 (inL / 65536)
  let in_r := wrap16 (inR / 65536)
  let buffer' := if st.freeze_enabled then st.buffer
    else fun j => if j = st.write_pos then wrap16 ((in_l + in_r) / 2) else st.buffer j
  let wp' := if st.freeze_enabled then st.write_pos else (st.write_pos + 1) % 16384
  let p := grainLoop st.grain_length buffer' wp' st.grain_density.toNat
    st.grains st.rnd
  let wet_out := sat16 p.2.2
  let out_l := wrap16 (granMixRaw in_l st.dry_mix wet_out st.wet_mix)
  let out_r := wrap16 (granMixRaw in_r st.dry_mix wet_out st.wet_mix)
  ((out_l * 65536, out_r * 65536),
   { st with buffer := buffer', write_pos := wp', grains := p.1, rnd := p.2.1 })

/-- The frame loop of the granular `fx_process`. -/

def granProcess (st : Gran) : List (Int × Int) → List (Int × Int) × Gran
  | [] => ([], st)
  | x :: xs =>
    let p := granStep st x.1 x.2
    let q := granProcess p.2 xs
    (p.1 :: q.1, q.2)

/-- The parameter identifiers of the granular effect.  The repository's
`fx_param.h` (which assigns the numeric IDs) is not under `src/`; only the
dispatch on the four named cases matters here, so the IDs are modelled as an
enumeration with a catch-all for every unknown ID (the `default:` branch). -/

inductive FxParamId where
  | wet_mix
  | dry_mix
  | grain_length
  | grain_density
  | other

/-- Model of `fx_set_param` of the granular effect.  The scaled values are stored
into `int16_t` statics, hence the `wrap16`:
`grain_length = 256 + (val >> 1)`, `grain_density = 1 + (val >> 11)`
(the comment in the source says "Scale to a reasonable range (1-8)"). -/

def fx_set_param (st : Gran) (id : FxParamId) (v : Int) : Gran :=
  match id with
  | .wet_mix => { st with wet_mix := v }
  | .dry_mix => { st with dry_mix := v }
  | .grain_length => { st with grain_length := wrap16 (256 + v / 2) }
  | .grain_density => { st with grain_density := wrap16 (1 + v / 2048) }
  | .other => st

/-- Model of `fx_set_enable` of the granular effect sets the freeze flag. -/

def fx_set_enable_gran (st : Gran) (en : Bool) : Gran :=
  { st with freeze_enabled := en }

/-- Model of `fx_init` plus the static initializers: zeroed capture buffer, write
cursor 0, all grains inactive, `grain_length = 2048`, `grain_density = 8`,
`wet_mix = dry_mix = F32_Q15(0.5f) = 16384`, freeze off. -/

def granInit (rnd : List Nat) : Gran :=
  { grain_length := 2048,
    grain_density := 8,
    wet_mix := 16384,
    dry_mix := 16384,
    freeze_enabled := false,
    buffer := fun _ => 0,
    write_pos := 0,
    grains := fun _ => ⟨0, 0, false⟩,
    rnd := rnd }

/-! ## C3: saturation vs. wrap-around

Well-formedness of effect state: every stored fixed-point cell is a genuine
`int16_t` value (automatic in C by the types; the `Int` embedding carries it
as an invariant), comb feedback gains obey the 0.98 clamp of `init_filters`,
and active grains have not outlived their grain length. -/

def combWF (c : Comb) : Prop :=
  (∀ j, int16R (c.buf j)) ∧ int16R c.filt ∧ 0 ≤ c.fb ∧ c.fb ≤ 32112

def apWF (a : Ap) : Prop := (∀ j, int16R (a.buf j)) ∧ int16R a.g

def reverbWF (st : Reverb) : Prop :=
  (∀ k, combWF (st.L k)) ∧ (∀ k, combWF (st.R k)) ∧
  (∀ k, apWF (st.AL k)) ∧ (∀ k, apWF (st.AR k)) ∧
  (∀ j, int16R (st.predL j)) ∧ (∀ j, int16R (st.predR j))

def granWF (st : Gran) : Prop :=
  (∀ j, int16R (st.buffer j)) ∧
  512 ≤ st.grain_length ∧ st.grain_length ≤ 16383 ∧
  (∀ j, (st.grains j).active → ((st.grains j).counter : Int) < st.grain_length)

/-- The state of the C3 counterexample: freeze on (buffer static, all cells
at full scale), all 8 grains live in their full-gain region, and
`set_param`-reachable extreme mix gains `wet_mix = dry_mix = 32767`. -/

def granC3st : Gran :=
  { granInit [] with
    buffer := fun _ => 32767,
    grains := fun _ => ⟨0, 512, true⟩,
    freeze_enabled := true,
    wet_mix := 32767,
    dry_mix := 32767 }

/-! ## Theorems -/

theorem sat16_int16R (x : Int) : int16R (sat16 x) := by
  unfold sat16 int16R; split <;> [skip; split] <;> omega

theorem sat16_eq_of_int16R {x : Int} (h : int16R x) : sat16 x = x := by
  unfold sat16 int16R at *; split <;> [skip; split] <;> omega

theorem wrap16_eq_of_int16R {x : Int} (h : int16R x) : wrap16 x = x := by
  unfold wrap16 int16R at *; omega

theorem wrap16_int16R (x : Int) : int16R (wrap16 x) := by
  unfold wrap16 int16R; omega

theorem absList_length (rb : Ringbuffer) : (absList rb).length = ringbuffer_size rb := by
  simp [absList]

theorem size_le (rb : Ringbuffer) (h : rbInv rb) : ringbuffer_size rb ≤ 767 := by
  rcases h with ⟨h1, h2⟩
  unfold ringbuffer_size
  split <;> omega

/-- Closed modular form of `ringbuffer_size` for in-range indices. -/
theorem size_mod_form (rb : Ringbuffer) (h : rbInv rb) :
    ringbuffer_size rb = (rb.write + 768 - rb.read) % 768 := by
  rcases h with ⟨h1, h2⟩
  unfold ringbuffer_size
  split <;> omega

/-- Pointwise description of the buffer after the two push `memcpy`s:
cell `j` receives `src[(j - w) mod 768]` when that offset is below `n`. -/
theorem pushWrite_spec (buf : Nat → Int) (w : Nat) (src : List Int)
    (hw : w < 768) (hn : src.length ≤ 767) (j : Nat) (hj : j < 768) :
    pushWrite buf w src j =
      if (j + 768 - w) % 768 < src.length then src.getD ((j + 768 - w) % 768) 0
      else buf j := by
  unfold pushWrite
  simp only
  set n := src.length with hn'
  by_cases h1 : j < n - min (768 - w) n
  · -- second memcpy region: j < remain, necessarily first = 768 - w and j < w
    simp only [if_pos h1]
    have hfirst : min (768 - w) n = 768 - w := by omega
    have hd : (j + 768 - w) % 768 = (768 - w) + j := by omega
    rw [hd, if_pos (by omega)]
    congr 1
    omega
  · simp only [if_neg h1]
    by_cases h2 : w ≤ j ∧ j < w + min (768 - w) n
    · -- first memcpy region
      simp only [if_pos h2]
      have hd : (j + 768 - w) % 768 = j - w := by omega
      rw [hd, if_pos (by omega)]
    · -- untouched
      simp only [if_neg h2]
      have hd : ¬ ((j + 768 - w) % 768 < n) := by
        rcases Nat.lt_or_ge j w with hjw | hjw
        · have : (j + 768 - w) % 768 = j + 768 - w := by omega
          omega
        · have : (j + 768 - w) % 768 = j - w := by omega
          omega
      rw [if_neg hd]

/-- A successful push appends exactly the pushed samples. -/
theorem push_some_spec (rb : Ringbuffer) (src : List Int) (rb' : Ringbuffer)
    (hInv : rbInv rb) (h : ringbuffer_push rb src = some rb') :
    rbInv rb' ∧ absList rb' = absList rb ++ src := by
  unfold ringbuffer_push at h
  split at h
  · exact absurd h (by simp)
  · rename_i hcond
    push_neg at hcond
    obtain ⟨hne, hcap⟩ := hcond
    have hinj := Option.some.inj h
    subst hinj
    obtain ⟨hr, hw⟩ := hInv
    have hs767 : ringbuffer_size rb ≤ 767 := size_le rb ⟨hr, hw⟩
    have hsf : ringbuffer_size rb = (rb.write + 768 - rb.read) % 768 :=
      size_mod_form rb ⟨hr, hw⟩
    unfold ringbuffer_capacity at hcap
    have hsn : ringbuffer_size rb + src.length ≤ 767 := by omega
    have hn767 : src.length ≤ 767 := by omega
    constructor
    · exact ⟨hr, Nat.mod_lt _ (show 0 < 768 by decide)⟩
    · have hsize' : ringbuffer_size
          ⟨pushWrite rb.buffer rb.write src, rb.read, (rb.write + src.length) % 768⟩ =
          ringbuffer_size rb + src.length := by
        show (if rb.read ≤ (rb.write + src.length) % 768
            then (rb.write + src.length) % 768 - rb.read
            else 768 - (rb.read - (rb.write + src.length) % 768)) = _
        split <;> omega
      apply List.ext_getElem
      · simp only [absList, hsize', List.length_map, List.length_range,
          List.length_append]
      · intro i hi1 hi2
        have hi : i < ringbuffer_size rb + src.length := by
          simpa only [absList, hsize', List.length_map, List.length_range] using hi1
        simp only [absList, List.getElem_map, List.getElem_range]
        have hidx : (rb.read + i) % 768 < 768 := Nat.mod_lt _ (show 0 < 768 by decide)
        rw [pushWrite_spec rb.buffer rb.write src hw hn767 _ hidx]
        by_cases hcase : i < ringbuffer_size rb
        · -- old region: untouched
          have hge : ¬ (((rb.read + i) % 768 + 768 - rb.write) % 768 < src.length) := by
            omega
          rw [if_neg hge]
          rw [List.getElem_append_left (by simpa [absList] using hcase)]
          simp [absList]
        · -- new region: holds the pushed sample i - size
          have hlt : ((rb.read + i) % 768 + 768 - rb.write) % 768 =
              i - ringbuffer_size rb := by
            omega
          rw [hlt,
            if_pos (show i - ringbuffer_size rb < src.length by omega)]
          rw [List.getElem_append_right (by simpa [absList] using hcase)]
          simp only [absList, List.length_map, List.length_range]
          exact List.getD_eq_getElem src 0
            (show i - ringbuffer_size rb < src.length by omega)

/-- Push fails exactly on `n = 0` or overflow of the free capacity. -/
theorem push_none_iff (rb : Ringbuffer) (src : List Int) :
    ringbuffer_push rb src = none ↔
      src.length = 0 ∨ src.length > ringbuffer_capacity rb := by
  unfold ringbuffer_push
  split <;> simp_all

/-- A successful pop returns exactly the oldest samples, in order. -/
theorem pop_some_spec (rb : Ringbuffer) (n : Nat) (out : List Int) (rb' : Ringbuffer)
    (hInv : rbInv rb) (h : ringbuffer_pop rb n = some (out, rb')) :
    rbInv rb' ∧ out = (absList rb).take n ∧ absList rb' = (absList rb).drop n := by
  unfold ringbuffer_pop at h
  split at h
  · exact absurd h (by simp)
  · rename_i hcond
    push_neg at hcond
    obtain ⟨hne, hsz⟩ := hcond
    have hinj := Option.some.inj h
    rw [Prod.mk.injEq] at hinj
    obtain ⟨hout, hrb'⟩ := hinj
    obtain ⟨hr, hw⟩ := hInv
    have hs767 : ringbuffer_size rb ≤ 767 := size_le rb ⟨hr, hw⟩
    have hsf : ringbuffer_size rb = (rb.write + 768 - rb.read) % 768 :=
      size_mod_form rb ⟨hr, hw⟩
    have hsize' : ringbuffer_size
        ⟨rb.buffer, (rb.read + n) % 768, rb.write⟩ = ringbuffer_size rb - n := by
      show (if (rb.read + n) % 768 ≤ rb.write
          then rb.write - (rb.read + n) % 768
          else 768 - ((rb.read + n) % 768 - rb.write)) = _
      split <;> omega
    refine ⟨?_, ?_, ?_⟩
    · rw [← hrb']; exact ⟨Nat.mod_lt _ (show 0 < 768 by decide), hw⟩
    · -- popped samples = first n live samples
      rw [← hout]
      apply List.ext_getElem
      · simp only [popRead, absList, List.length_map, List.length_range,
          List.length_take]
        omega
      · intro i hi1 hi2
        simp only [popRead, List.length_map, List.length_range] at hi1
        simp only [popRead, List.getElem_map, List.getElem_range]
        rw [List.getElem_take]
        simp only [absList, List.getElem_map, List.getElem_range]
        by_cases hc : i < min (768 - rb.read) n
        · rw [if_pos hc]
          congr 1
          omega
        · rw [if_neg hc]
          congr 1
          omega
    · -- remaining samples
      rw [← hrb']
      apply List.ext_getElem
      · simp only [absList, hsize', List.length_map, List.length_range,
          List.length_drop]
      · intro i hi1 hi2
        simp only [absList, hsize', List.length_map, List.length_range] at hi1
        simp only [absList, List.getElem_map, List.getElem_range]
        rw [List.getElem_drop]
        simp only [absList, List.getElem_map, List.getElem_range]
        congr 1
        omega

/-- Pop fails exactly on `n = 0` or underflow of the live size. -/
theorem pop_none_iff (rb : Ringbuffer) (n : Nat) :
    ringbuffer_pop rb n = none ↔ n = 0 ∨ n > ringbuffer_size rb := by
  unfold ringbuffer_pop
  split <;> simp_all

/-- Simulation: the concrete run, viewed through the abstraction, is exactly
the ideal FIFO run -- same success/failure and identical pop outputs. -/
theorem runRb_sim (ops : List RbOp) :
    ∀ rb : Ringbuffer, rbInv rb →
      (runRb rb ops).map (fun p => (p.1, absList p.2)) = runQueue (absList rb) ops := by
  induction ops with
  | nil => intro rb _; simp [runRb, runQueue]
  | cons op ops ih =>
    intro rb hInv
    cases op with
    | push xs =>
      rw [runRb]
      rcases hp : ringbuffer_push rb xs with _ | rb'
      · have hfail := (push_none_iff rb xs).mp hp
        have hlen : (absList rb).length = ringbuffer_size rb := absList_length rb
        have hcap : xs.length = 0 ∨ (absList rb).length + xs.length > 767 := by
          unfold ringbuffer_capacity at hfail
          have := size_le rb hInv
          omega
        rw [runQueue, if_pos hcap]
        rfl
      · obtain ⟨hInv', habs⟩ := push_some_spec rb xs rb' hInv hp
        have hok : ¬ (xs.length = 0 ∨ (absList rb).length + xs.length > 767) := by
          have h1 : ¬ (xs.length = 0 ∨ xs.length > ringbuffer_capacity rb) := by
            intro hc
            rw [← push_none_iff rb xs] at hc
            rw [hc] at hp
            exact Option.noConfusion hp
          have hlen : (absList rb).length = ringbuffer_size rb := absList_length rb
          have := size_le rb hInv
          unfold ringbuffer_capacity at h1
          push_neg at h1 ⊢
          omega
        rw [runQueue, if_neg hok, ← habs]
        exact ih rb' hInv'
    | pop n =>
      rw [runRb]
      rcases hp : ringbuffer_pop rb n with _ | ⟨out, rb'⟩
      · have hfail := (pop_none_iff rb n).mp hp
        have hlen : (absList rb).length = ringbuffer_size rb := absList_length rb
        have hsz : n = 0 ∨ n > (absList rb).length := by omega
        rw [runQueue, if_pos hsz]
        rfl
      · obtain ⟨hInv', hout, habs⟩ := pop_some_spec rb n out rb' hInv hp
        have hok : ¬ (n = 0 ∨ n > (absList rb).length) := by
          have h1 : ¬ (n = 0 ∨ n > ringbuffer_size rb) := by
            intro hc
            rw [← pop_none_iff rb n] at hc
            rw [hc] at hp
            exact Option.noConfusion hp
          have hlen : (absList rb).length = ringbuffer_size rb := absList_length rb
          push_neg at h1 ⊢
          omega
        have hih := ih rb' hInv'
        rw [runQueue, if_neg hok, ← habs, ← hih, ← hout]
        show Option.map (fun p => (p.1, absList p.2))
          (Option.map (fun p => (out :: p.1, p.2)) (runRb rb' ops)) = _
        rcases runRb rb' ops with _ | p
        · rfl
        · rfl

/-- C1.  The RingBuffer is FIFO.

First conjunct: for every operation sequence, running it on the
zero-initialized buffer and abstracting agrees exactly with the ideal FIFO
queue run -- in particular every sequence of pushes and pops that respects
capacity succeeds on the buffer and each `pop` returns exactly the samples in
the order pushed.  Second conjunct: from any in-range state with `size = 0`
(any wrap-around point), a push of `n ∈ [1, 767]` samples followed by a pop of
`n` samples succeeds, returns those very samples, and leaves `size() = 0`. -/
theorem C1_ringbuffer_fifo :
    (∀ ops : List RbOp,
      (runRb rb0 ops).map (fun p => (p.1, absList p.2)) = runQueue [] ops) ∧
    (∀ (rb : Ringbuffer) (xs : List Int), rbInv rb → ringbuffer_size rb = 0 →
      xs.length ≠ 0 → xs.length ≤ 767 →
      ((ringbuffer_push rb xs).bind fun rb1 => ringbuffer_pop rb1 xs.length).map
          (fun p => (p.1, ringbuffer_size p.2)) = some (xs, 0)) := by
  constructor
  · intro ops
    have h0 : absList rb0 = [] := by simp [absList, rb0, ringbuffer_size]
    rw [← h0]
    exact runRb_sim ops rb0 (by constructor <;> simp [rb0])
  · intro rb xs hInv hsz hne hlen
    rcases hp : ringbuffer_push rb xs with _ | rb1
    · rw [push_none_iff] at hp
      unfold ringbuffer_capacity at hp
      omega
    · obtain ⟨hInv1, habs1⟩ := push_some_spec rb xs rb1 hInv hp
      have habs0 : absList rb = [] := by
        have := absList_length rb
        rw [hsz] at this
        exact List.length_eq_zero.mp this
      rw [habs0, List.nil_append] at habs1
      have hsz1 : ringbuffer_size rb1 = xs.length := by
        rw [← absList_length rb1, habs1]
      rcases hq : ringbuffer_pop rb1 xs.length with _ | ⟨out, rb2⟩
      · rw [pop_none_iff] at hq
        omega
      · obtain ⟨hInv2, hout, habs2⟩ := pop_some_spec rb1 xs.length out rb2 hInv1 hq
        have hsz2 : ringbuffer_size rb2 = 0 := by
          rw [← absList_length rb2, habs2, habs1, List.drop_length]
          rfl
        show Option.map (fun p => (p.1, ringbuffer_size p.2))
          (ringbuffer_pop rb1 xs.length) = some (xs, 0)
        rw [hq]
        show some (out, ringbuffer_size rb2) = some (xs, 0)
        rw [hout, habs1, List.take_length, hsz2]

/-- Witness for C1 at concrete inputs: a wrap-around exercising sequence of
pushes and pops from the zero buffer, and a push/pop pair starting at a
nonzero wrap point. -/
theorem C1_ringbuffer_fifo_witness :
    ((runRb rb0 [RbOp.push [3, 1, 4], RbOp.pop 2, RbOp.push [5, 9], RbOp.pop 3]).map
        (fun p => (p.1, absList p.2)) =
      runQueue [] [RbOp.push [3, 1, 4], RbOp.pop 2, RbOp.push [5, 9], RbOp.pop 3]) ∧
    ((ringbuffer_push ⟨fun _ => 0, 766, 766⟩ [7, 8, 9]).bind
        (fun rb1 => ringbuffer_pop rb1 3)).map
        (fun p => (p.1, ringbuffer_size p.2)) = some ([7, 8, 9], 0) :=
  ⟨C1_ringbuffer_fifo.1 [RbOp.push [3, 1, 4], RbOp.pop 2, RbOp.push [5, 9], RbOp.pop 3],
   C1_ringbuffer_fifo.2 ⟨fun _ => 0, 766, 766⟩ [7, 8, 9]
     (by decide) (by decide) (by decide) (by decide)⟩

/-- C2.  Push and pop are all-or-nothing with exact failure conditions.

`push` fails (returning `false`, mutating nothing -- in this embedding the
failure branch returns `none` before any store, as the C code returns before
any `memcpy`) exactly when `n = 0` or `n > capacity_free`; on success it
copies all `n` containers (cell `(write + k) mod 768` receives `src[k]` for
`k < n`, every other cell is untouched), keeps `read`, and advances `write`
by `n` mod 768.  `pop` mirrors this against `size`, copying all `n` oldest
samples out and advancing `read` by `n` mod 768 with the array untouched. -/
theorem C2_push_pop_all_or_nothing (rb : Ringbuffer) (hInv : rbInv rb) :
    (∀ src : List Int,
      (ringbuffer_push rb src = none ↔
        src.length = 0 ∨ src.length > ringbuffer_capacity rb) ∧
      (∀ rb', ringbuffer_push rb src = some rb' →
        rb'.read = rb.read ∧ rb'.write = (rb.write + src.length) % 768 ∧
        (∀ j, j < 768 →
          rb'.buffer j =
            if (j + 768 - rb.write) % 768 < src.length
            then src.getD ((j + 768 - rb.write) % 768) 0
            else rb.buffer j))) ∧
    (∀ n : Nat,
      (ringbuffer_pop rb n = none ↔ n = 0 ∨ n > ringbuffer_size rb) ∧
      (∀ out rb', ringbuffer_pop rb n = some (out, rb') →
        out = (absList rb).take n ∧ rb'.buffer = rb.buffer ∧
        rb'.read = (rb.read + n) % 768 ∧ rb'.write = rb.write)) := by
  obtain ⟨hr, hw⟩ := hInv
  constructor
  · intro src
    refine ⟨push_none_iff rb src, ?_⟩
    intro rb' h
    unfold ringbuffer_push at h
    split at h
    · exact absurd h (by simp)
    · rename_i hcond
      push_neg at hcond
      have hinj := Option.some.inj h
      subst hinj
      have hn767 : src.length ≤ 767 := by
        have := size_le rb ⟨hr, hw⟩
        unfold ringbuffer_capacity at hcond
        omega
      exact ⟨rfl, rfl, fun j hj => pushWrite_spec rb.buffer rb.write src hw hn767 j hj⟩
  · intro n
    refine ⟨pop_none_iff rb n, ?_⟩
    intro out rb' h
    obtain ⟨_, hout, _⟩ := pop_some_spec rb n out rb' ⟨hr, hw⟩ h
    unfold ringbuffer_pop at h
    split at h
    · exact absurd h (by simp)
    · have hinj := Option.some.inj h
      rw [Prod.mk.injEq] at hinj
      obtain ⟨_, hrb'⟩ := hinj
      exact ⟨hout, by rw [← hrb'], by rw [← hrb'], by rw [← hrb']⟩

/-- Witness for C2 at a concrete wrap-around state: `read = write = 767`,
push of two samples wraps, pop returns them. -/
theorem C2_push_pop_all_or_nothing_witness :
    ((ringbuffer_push ⟨fun _ => 0, 767, 767⟩ [11, 22] = none ↔
        (2 : Nat) = 0 ∨ (2 : Nat) > ringbuffer_capacity ⟨fun _ => 0, 767, 767⟩) ∧
      (∀ out rb', ringbuffer_pop ⟨fun _ => 0, 767, 767⟩ 1 = some (out, rb') →
        out = (absList ⟨fun _ => 0, 767, 767⟩).take 1 ∧ rb'.buffer = (fun _ => (0 : Int)) ∧
        rb'.read = (767 + 1) % 768 ∧ rb'.write = 767)) := by
  have h := C2_push_pop_all_or_nothing ⟨fun _ => 0, 767, 767⟩ (by decide)
  exact ⟨(h.1 [11, 22]).1, (h.2 1).2⟩

/-- C4.  Clock reconciliation is exact in the long run: after `T` ticks the
total number of frames delivered is `⌊T·rate/1000⌋` and the accumulator holds
`T·rate mod 1000`; the total is within one frame of `round(T·rate/1000)`
(computed as `⌊(T·rate + 500)/1000⌋`), and each tick delivers the integer
quotient of `accumulator + rate` by 1000 while keeping the remainder. -/
theorem C4_clock_reconciliation (rate T : Nat) :
    sofRun rate T = ((T * rate) / 1000, (T * rate) % 1000) ∧
    (T * rate) / 1000 ≤ (T * rate + 500) / 1000 ∧
    (T * rate + 500) / 1000 ≤ (T * rate) / 1000 + 1 ∧
    (∀ acc, sofTick rate acc = ((acc + rate) / 1000, (acc + rate) % 1000)) := by
  refine ⟨?_, by omega, by omega, fun _ => rfl⟩
  induction T with
  | zero => simp [sofRun]
  | succ T ih =>
    show (let p := sofRun rate T
      let t := sofTick rate p.2
      (p.1 + t.1, t.2)) = _
    rw [ih]
    show ((T * rate) / 1000 + ((T * rate) % 1000 + rate) / 1000,
          ((T * rate) % 1000 + rate) % 1000) = _
    have hmul : (T + 1) * rate = T * rate + rate := by ring
    rw [hmul, Prod.mk.injEq]
    constructor <;> omega

/-- Positions below the loop cursor are never written by `outerFill`. -/
theorem outerFill_low (fuel : Nat) :
    ∀ (out : Nat → Int) (lfs c S i j : Nat), j < i →
      outerFill fuel out lfs c S i j = out j := by
  induction fuel with
  | zero => intro out lfs c S i j _; rfl
  | succ fuel ih =>
    intro out lfs c S i j hj
    show (if i < S then outerFill fuel (innerFill out lfs i S c) lfs c S (i + c) else out) j = _
    split
    · rw [ih _ _ _ _ _ _ (by omega)]
      unfold innerFill
      rw [if_neg (by omega)]
    · rfl

/-- Positions at or above the cursor receive the frame at `lfs`, repeated
with period `c`. -/
theorem outerFill_high (fuel : Nat) :
    ∀ (out : Nat → Int) (lfs c S i j : Nat), 0 < c → lfs + c ≤ i →
      i ≤ j → j < S → S ≤ i + c * fuel →
      outerFill fuel out lfs c S i j = out (lfs + (j - i) % c) := by
  induction fuel with
  | zero => intro out lfs c S i j hc hl hij hjS hfuel; omega
  | succ fuel ih =>
    intro out lfs c S i j hc hl hij hjS hfuel
    show (if i < S then outerFill fuel (innerFill out lfs i S c) lfs c S (i + c) else out) j = _
    rw [if_pos (by omega)]
    by_cases hcase : j < i + c
    · rw [outerFill_low fuel _ _ _ _ _ _ (by omega)]
      unfold innerFill
      rw [if_pos ⟨hij, hcase, hjS⟩]
      congr 1
      rw [Nat.mod_eq_of_lt (show j - i < c by omega)]
    · rw [ih _ _ _ _ _ _ hc (by omega) (by omega) hjS (by
        have : c * (fuel + 1) = c * fuel + c := by ring
        omega)]
      have hhc : (j - (i + c)) % c < c := Nat.mod_lt _ hc
      unfold innerFill
      rw [if_neg (by omega)]
      congr 1
      have hji : j - i = (j - (i + c)) + c := by omega
      rw [hji, Nat.add_mod_right]

/-- C5.  Underrun padding on a transmit tick needing `S` samples with
`c = channels ≥ 1` channels.

First conjunct: if the output ring buffer holds `hv` samples with
`c ≤ hv < S` (at least one full frame but not enough), the tick's output
block holds the popped samples followed, channel-wise with period `c`, by
copies of the last `c` popped samples (the last available frame) up to `S`
-- not silence.  Second conjunct: if the buffer is completely empty, the
whole `S`-sample block is zero-filled. -/
theorem C5_underrun_padding (rb : Ringbuffer) (S c : Nat) (prev : Nat → Int)
    (hInv : rbInv rb) (hc : 0 < c) :
    (c ≤ ringbuffer_size rb → ringbuffer_size rb < S →
      ∀ j, j < S →
        (txTick rb S c prev).1 j =
          if j < ringbuffer_size rb then (absList rb).getD j 0
          else (absList rb).getD
            (ringbuffer_size rb - c + (j - ringbuffer_size rb) % c) 0) ∧
    (ringbuffer_size rb = 0 → ∀ j, j < S → (txTick rb S c prev).1 j = 0) := by
  constructor
  · intro hcs hsS j hj
    have hmin : min (ringbuffer_size rb) S = ringbuffer_size rb := by omega
    rcases hq : ringbuffer_pop rb (min (ringbuffer_size rb) S) with _ | ⟨out, rb'⟩
    · rw [pop_none_iff] at hq
      omega
    · obtain ⟨_, hout, _⟩ := pop_some_spec rb _ out rb' hInv hq
      rw [hmin] at hout
      have habs : out = absList rb := by
        rw [hout]
        exact List.take_of_length_le (by rw [absList_length])
      have hlen : out.length = ringbuffer_size rb := by
        rw [habs, absList_length]
      unfold txTick
      rw [hq]
      show txPad out S c prev j = _
      unfold txPad
      rw [hlen]
      rw [if_pos hsS, if_pos ⟨hcs, by omega⟩]
      by_cases hcase : j < ringbuffer_size rb
      · rw [outerFill_low S _ _ _ _ _ _ hcase, if_pos hcase, if_pos hcase, habs]
      · rw [outerFill_high S _ _ _ _ _ _ hc (by omega) (by omega) hj
          (by have : c * S ≥ 1 * S := Nat.mul_le_mul_right S hc; omega)]
        rw [if_neg hcase]
        have hmc : (j - ringbuffer_size rb) % c < c := Nat.mod_lt _ hc
        rw [if_pos (by omega), habs]
  · intro h0 j hj
    have hmin : min (ringbuffer_size rb) S = 0 := by omega
    rcases hq : ringbuffer_pop rb (min (ringbuffer_size rb) S) with _ | ⟨out, rb'⟩
    · unfold txTick
      rw [hq]
      show txPad [] S c prev j = _
      unfold txPad
      simp only [List.length_nil]
      rw [if_pos (show 0 < S by omega), if_neg (by omega), if_pos (by omega)]
    · exfalso
      rw [hmin] at hq
      have hnone := (pop_none_iff rb 0).mpr (Or.inl rfl)
      rw [hnone] at hq
      exact Option.noConfusion hq

/-- Witness for C5: a buffer holding one stereo frame `[5, 7]` (with wrapped
indices), `S = 6`, `c = 2`: position 4 of the padded block repeats sample 5;
and an empty buffer zero-fills position 3. -/
theorem C5_underrun_padding_witness :
    (txTick ⟨fun j => if j = 767 then 5 else 7, 767, 1⟩ 6 2 (fun _ => 9)).1 4 = 5 ∧
    (txTick ⟨fun _ => 3, 5, 5⟩ 6 2 (fun _ => 9)).1 3 = 0 := by
  constructor
  · have h := (C5_underrun_padding ⟨fun j => if j = 767 then 5 else 7, 767, 1⟩ 6 2
      (fun _ => 9) (by decide) (by decide)).1
      (by decide) (by decide) 4 (by decide)
    rw [h]
    decide
  · have h := (C5_underrun_padding ⟨fun _ => 3, 5, 5⟩ 6 2 (fun _ => 9)
      (by decide) (by decide)).2 (by decide) 3 (by decide)
    exact h

/-- C6.  Reverb bypass is the exact identity: with the effect disabled,
`process` returns every input container unchanged, all 32 bits included
(the C code `memcpy`s `frames * 8` bytes, i.e. both whole containers of
every frame). -/
theorem C6_bypass_identity (st : Reverb) (inp : List (Int × Int))
    (h : st.enabled = false) : (fx_process_reverb st inp).1 = inp := by
  unfold fx_process_reverb
  rw [h]
  rfl

/-- Witness for C6: a concrete disabled state and block, low input bits
included (`-7 = 0xFFFF...F9` has nonzero padding bits). -/
theorem C6_bypass_identity_witness :
    (fx_process_reverb
      (fx_set_enable_reverb (init_filters fun _ => 24000) false)
      [(5, -7), (65537, 0)]).1 = [(5, -7), (65537, 0)] :=
  C6_bypass_identity _ _ rfl

/-- Counterexample to C7 as stated: processing one frame while disabled
leaves `pred_idx` (and all other state) untouched at 0, whereas the enabled
pipeline on the same state and input advances it to 1 -- the disabled path
does *not* advance the delay lines as the claim (and the spec's design note)
says. -/
theorem C7_counterexample :
    (fx_process_reverb
        (fx_set_enable_reverb (init_filters fun _ => 24000) false)
        [(0, 0)]).2.pred_idx = 0 ∧
    (fx_process_reverb (init_filters fun _ => 24000) [(0, 0)]).2.pred_idx = 1 ∧
    (0 : Nat) ≠ 1 :=
  ⟨rfl, rfl, by decide⟩

/-- C7 (amended).  When the reverb is disabled, `fx_process` returns
immediately after the bypass copy: the output equals the input and the
*entire* internal state (pre-delay buffers and cursor, combs, allpasses) is
left exactly as it was -- no delay-line state is advanced. -/
theorem C7_disabled_state_frozen (st : Reverb) (inp : List (Int × Int))
    (h : st.enabled = false) : fx_process_reverb st inp = (inp, st) := by
  unfold fx_process_reverb
  rw [h]
  rfl

/-- Witness for C7 (amended) at a concrete state and block. -/
theorem C7_disabled_state_frozen_witness :
    fx_process_reverb
      (fx_set_enable_reverb (init_filters fun _ => 24000) false) [(3, 4)] =
    ([(3, 4)], fx_set_enable_reverb (init_filters fun _ => 24000) false) :=
  C7_disabled_state_frozen _ _ rfl

/-- Counterexample to C9 as stated: after `fx_set_format(2, 44100)` the first
left comb's delay length is still the fixed table value 509, not the
claimed rate-scaled `509 * 44100 / 48000 = 467`. -/
theorem C9_counterexample :
    ((fx_set_format_reverb (init_filters fun _ => 24000) 2 44100).L 0).size = 509 ∧
    509 * 44100 / 48000 = 467 ∧ (509 : Nat) ≠ 467 :=
  ⟨rfl, by decide, by decide⟩

/-- C9 (amended).  The firmware reverb's delay-line lengths are the fixed
48 kHz reference-table values for *every* configured sample rate:
`fx_set_format` is a no-op and `init_filters` copies the tables unscaled.
Consequently the claimed scaling by `sample_rate / 48000` holds exactly when
the configured rate is the 48 kHz reference rate (ratio 1). -/
theorem C9_lengths_fixed (fb : Fin 8 → Int) (ch sr : Nat) :
    fx_set_format_reverb (init_filters fb) ch sr = init_filters fb ∧
    (∀ k, ((init_filters fb).L k).size = COMB_DLY_L k ∧
          ((init_filters fb).R k).size = COMB_DLY_R k) ∧
    (∀ k, ((init_filters fb).AL k).size = AP_DLY_L k ∧
          ((init_filters fb).AR k).size = AP_DLY_R k) ∧
    (sr = 48000 →
      ∀ k, ((init_filters fb).L k).size = COMB_DLY_L k * sr / 48000) := by
  refine ⟨rfl, fun k => ⟨rfl, rfl⟩, fun k => ⟨rfl, rfl⟩, fun hsr k => ?_⟩
  subst hsr
  show COMB_DLY_L k = COMB_DLY_L k * 48000 / 48000
  omega

/-- Witness for C9 (amended): the 48 kHz instantiation at the first comb. -/
theorem C9_lengths_fixed_witness :
    ((init_filters fun _ => 24000).L 0).size = COMB_DLY_L 0 * 48000 / 48000 :=
  (C9_lengths_fixed (fun _ => 24000) 2 48000).2.2.2 rfl 0

/-- C8 fails on the code: `set_param(FX_PARAM_GRAIN_DENSITY, v)` stores
`1 + (v >> 11)`, which ranges over `[-15, 16]` as `v` ranges over the signed
16-bit inputs -- not `[1, 8]`.  At `v = 32767` the stored density is 16, so
the grain loop `for (j = 0; j < grain_density; j++)` runs `j` up to 15,
indexing `grains[8..15]` beyond the 8-slot pool (`NUM_GRAINS = 8`), contrary
to the source's own comment "Scale to a reasonable range (1-8)". -/
theorem C8_grain_density_overflow :
    (fx_set_param (granInit []) FxParamId.grain_density 32767).grain_density = 16 ∧
    (fx_set_param (granInit []) FxParamId.grain_density (-32768)).grain_density = -15 ∧
    (fx_set_param (granInit []) FxParamId.grain_density 16383).grain_density = 8 ∧
    ¬ ((16 : Int) ≤ 8) := by
  refine ⟨?_, ?_, ?_, by decide⟩ <;> decide

theorem init_filters_WF (fb : Fin 8 → Int) (h : fbClamped fb) :
    reverbWF (init_filters fb) := by
  refine ⟨fun k => ⟨fun j => show int16R 0 by decide, show int16R 0 by decide,
      (h k).1, (h k).2⟩,
    fun k => ⟨fun j => show int16R 0 by decide, show int16R 0 by decide,
      (h k).1, (h k).2⟩,
    fun k => ⟨fun j => show int16R 0 by decide, show int16R 16384 by decide⟩,
    fun k => ⟨fun j => show int16R 0 by decide, show int16R 16384 by decide⟩,
    fun j => show int16R 0 by decide, fun j => show int16R 0 by decide⟩

theorem granInit_WF (rnd : List Nat) : granWF (granInit rnd) := by
  refine ⟨fun j => show int16R 0 by decide, show (512 : Int) ≤ 2048 by decide,
    show (2048 : Int) ≤ 16383 by decide, fun j h => ?_⟩
  exact absurd h (show (false = true) → False by decide)

/-- The value `mul_q15 a b` lies in `[-b, b]` for an `int16_t` `a` and a nonnegative
Q15 gain `b` (and the inner shift already lies in that range, so the
saturation is the identity there). -/
theorem mul_q15_bound (a b : Int) (ha : int16R a) (hb : 0 ≤ b) (hb' : b ≤ 32767) :
    -b ≤ mul_q15 a b ∧ mul_q15 a b ≤ b := by
  obtain ⟨ha1, ha2⟩ := ha
  have h1 : a * b ≤ 32767 * b := mul_le_mul_of_nonneg_right ha2 hb
  have h2 : (-32768) * b ≤ a * b := mul_le_mul_of_nonneg_right ha1 hb
  have h3 : a * b / 32768 ≤ 32767 * b / 32768 := Int.ediv_le_ediv (by norm_num) h1
  have h4 : (-32768) * b / 32768 ≤ a * b / 32768 := Int.ediv_le_ediv (by norm_num) h2
  have h5 : (-32768) * b / 32768 = -b := by
    rw [show ((-32768) : Int) * b = (-b) * 32768 by ring,
      Int.mul_ediv_cancel _ (by norm_num)]
  have h6 : 32767 * b / 32768 ≤ b := by
    have : 32767 * b ≤ b * 32768 := by nlinarith
    have := Int.ediv_le_ediv (show (0:Int) < 32768 by norm_num) this
    rwa [Int.mul_ediv_cancel _ (by norm_num)] at this
  have hv : -b ≤ a * b / 32768 ∧ a * b / 32768 ≤ b := by omega
  unfold mul_q15
  rw [sat16_eq_of_int16R ⟨by omega, by omega⟩]
  exact hv

/-- The `(int16_t)(fb_term >> 15)` cast in `comb_process` never wraps when
the feedback gain obeys the 0.98 clamp: the shifted value lies in
`[-32112, 32111]`. -/
theorem combFbRaw_bound (fb d : Int) (hfb : 0 ≤ fb) (hfb' : fb ≤ 32112)
    (hd : int16R d) : -32112 ≤ combFbRaw fb d ∧ combFbRaw fb d ≤ 32111 := by
  obtain ⟨hd1, hd2⟩ := hd
  have h1 : fb * d ≤ 32112 * 32767 := by nlinarith
  have h2 : -(32112 * 32768) ≤ fb * d := by nlinarith
  unfold combFbRaw
  have h3 : fb * d / 32768 ≤ 32112 * 32767 / 32768 :=
    Int.ediv_le_ediv (by norm_num) h1
  have h4 : (-(32112 * 32768)) / 32768 ≤ fb * d / 32768 :=
    Int.ediv_le_ediv (by norm_num) h2
  have h5 : ((-(32112 * 32768)) : Int) / 32768 = -32112 := by decide
  have h6 : ((32112 * 32767) : Int) / 32768 = 32111 := by decide
  omega

/-- The damped blend stored into `c->filt` lies in `[-32767, 32767]`: the
implicit `int16_t` conversion of that store never wraps. -/
theorem combFiltRaw_bound (filt fbq : Int) (hf : int16R filt) (hq : int16R fbq) :
    int16R (combFiltRaw filt fbq) := by
  have e1 : sat16 (32767 - DAMP_Q15) = 19660 := by decide
  have h1 := mul_q15_bound filt (sat16 (32767 - DAMP_Q15))
    hf (by rw [e1]; norm_num) (by rw [e1]; norm_num)
  have h2 := mul_q15_bound fbq DAMP_Q15 hq (by decide) (by decide)
  rw [e1] at h1
  unfold combFiltRaw int16R
  rw [e1]
  have : DAMP_Q15 = 13107 := by decide
  omega

/-- Lemma: `comb_process` under well-formedness: the delayed output is in range,
the state stays well-formed, and both implicit `int16_t` conversions
(the `fb_term >> 15` cast and the `c->filt` store) are the identity --
i.e. saturation semantics, no wrap-around. -/
theorem comb_process_spec (c : Comb) (x : Int) (hc : combWF c) :
    int16R (comb_process c x).1 ∧ combWF (comb_process c x).2 ∧
    wrap16 (combFbRaw c.fb (c.buf c.idx)) = combFbRaw c.fb (c.buf c.idx) ∧
    wrap16 (combFiltRaw c.filt (wrap16 (combFbRaw c.fb (c.buf c.idx)))) =
      combFiltRaw c.filt (wrap16 (combFbRaw c.fb (c.buf c.idx))) := by
  obtain ⟨hbuf, hfilt, hfb0, hfb1⟩ := hc
  have hd := hbuf c.idx
  have hraw := combFbRaw_bound c.fb (c.buf c.idx) hfb0 hfb1 hd
  have hfbq : wrap16 (combFbRaw c.fb (c.buf c.idx)) = combFbRaw c.fb (c.buf c.idx) :=
    wrap16_eq_of_int16R ⟨by omega, by omega⟩
  have hfiltraw : int16R (combFiltRaw c.filt (wrap16 (combFbRaw c.fb (c.buf c.idx)))) := by
    apply combFiltRaw_bound _ _ hfilt
    rw [hfbq]
    exact ⟨by omega, by omega⟩
  have hfiltw : wrap16 (combFiltRaw c.filt (wrap16 (combFbRaw c.fb (c.buf c.idx)))) =
      combFiltRaw c.filt (wrap16 (combFbRaw c.fb (c.buf c.idx))) :=
    wrap16_eq_of_int16R hfiltraw
  refine ⟨hd, ⟨?_, ?_, hfb0, hfb1⟩, hfbq, hfiltw⟩
  · intro j
    show int16R (if j = c.idx then _ else _)
    split
    · exact sat16_int16R _
    · exact hbuf j
  · show int16R (wrap16 _)
    exact wrap16_int16R _

/-- Lemma: `ap_process` preserves well-formedness and emits an in-range value
(every store there is explicitly saturated). -/
theorem ap_process_spec (a : Ap) (x : Int) (ha : apWF a) :
    int16R (ap_process a x).1 ∧ apWF (ap_process a x).2 := by
  obtain ⟨hbuf, hg⟩ := ha
  refine ⟨sat16_int16R _, ?_, hg⟩
  intro j
  show int16R (if j = a.idx then _ else _)
  split
  · exact sat16_int16R _
  · exact hbuf j

theorem apChain_spec (l : List (Fin 4)) :
    ∀ (aps : Fin 4 → Ap) (x : Int), (∀ k, apWF (aps k)) → int16R x →
      int16R (apChain l aps x).1 ∧ ∀ k, apWF ((apChain l aps x).2 k) := by
  induction l with
  | nil => intro aps x h hx; exact ⟨hx, h⟩
  | cons k ks ih =>
    intro aps x h hx
    obtain ⟨hy, hst⟩ := ap_process_spec (aps k) x (h k)
    refine ih _ _ (fun k' => ?_) hy
    show apWF (if k' = k then _ else _)
    split
    · exact hst
    · exact h k'

/-- One reverb sample preserves well-formedness, and both emitted containers
are in-range Q15 values shifted into the high 16 bits. -/
theorem reverbSample_spec (st : Reverb) (l r : Int) (h : reverbWF st) :
    reverbWF (reverbSample st l r).2 ∧
    (∃ qL, int16R qL ∧ (reverbSample st l r).1.1 = qL * 65536) ∧
    (∃ qR, int16R qR ∧ (reverbSample st l r).1.2 = qR * 65536) := by
  obtain ⟨hL, hR, hAL, hAR, hpL, hpR⟩ := h
  refine ⟨⟨?_, ?_, ?_, ?_, ?_, ?_⟩, ⟨_, sat16_int16R _, rfl⟩, ⟨_, sat16_int16R _, rfl⟩⟩
  · intro k
    exact (comb_process_spec (st.L k) _ (hL k)).2.1
  · intro k
    exact (comb_process_spec (st.R k) _ (hR k)).2.1
  · exact (apChain_spec (List.finRange 4) st.AL _ hAL (sat16_int16R _)).2
  · exact (apChain_spec (List.finRange 4) st.AR _ hAR (sat16_int16R _)).2
  · intro j
    show int16R (if j = st.pred_idx then _ else _)
    split
    · exact sat16_int16R _
    · exact hpL j
  · intro j
    show int16R (if j = st.pred_idx then _ else _)
    split
    · exact sat16_int16R _
    · exact hpR j

/-- The enabled reverb block loop preserves well-formedness and every output
container is a shifted in-range Q15 value. -/
theorem reverbRun_spec (inp : List (Int × Int)) :
    ∀ st : Reverb, reverbWF st →
      reverbWF (reverbRun st inp).2 ∧
      ∀ o ∈ (reverbRun st inp).1,
        (∃ qL, int16R qL ∧ o.1 = qL * 65536) ∧
        (∃ qR, int16R qR ∧ o.2 = qR * 65536) := by
  induction inp with
  | nil => intro st h; exact ⟨h, by intro o ho; exact absurd ho (by simp [reverbRun])⟩
  | cons x xs ih =>
    intro st h
    obtain ⟨h2, hqL, hqR⟩ := reverbSample_spec st x.1 x.2 h
    obtain ⟨hrec, hout⟩ := ih _ h2
    refine ⟨hrec, ?_⟩
    intro o ho
    rcases List.mem_cons.mp ho with rfl | ho
    · exact ⟨hqL, hqR⟩
    · exact hout o ho

/-- The grain envelope stays a Q15 gain in `[0, 32767]` for any live grain
(`counter < grain_length`) at a well-formed grain length. -/
theorem envQ15_bound (gl : Int) (c : Nat) (hgl : 512 ≤ gl) (hgl' : gl ≤ 16383)
    (hc : (c : Int) < gl) : 0 ≤ envQ15 gl c ∧ envQ15 gl c ≤ 32767 := by
  unfold envQ15 u32 f32q15Frac
  have hu : (gl - 512) % 4294967296 = gl - 512 := by omega
  rw [hu]
  split
  · omega
  · split
    · omega
    · omega

/-- Lemma: `grainSlot` keeps every live grain's counter below the grain length. -/
theorem grainSlot_inv (gl : Int) (buffer : Nat → Int) (wp : Nat) (g : Grain)
    (rnd : List Nat) (wet : Int) (hgl : 512 ≤ gl) (hgl' : gl ≤ 16383)
    (_hg : g.active = true → (g.counter : Int) < gl) :
    (grainSlot gl buffer wp g rnd wet).1.active = true →
      (((grainSlot gl buffer wp g rnd wet).1.counter : Int) < gl) := by
  simp only [grainSlot]
  split
  · split
    · intro h
      exact absurd h (by simp)
    · rename_i hlt
      intro _
      have hu : u32 gl = gl := by unfold u32; omega
      rw [hu] at hlt
      show ((g.counter + 1 : Nat) : Int) < gl
      omega
  · intro _
    show ((0 : Nat) : Int) < gl
    omega

/-- The grain loop (over any slot list) preserves the live-grain invariant. -/
theorem grainLoop_foldl_inv (gl : Int) (buffer : Nat → Int) (wp : Nat)
    (hgl : 512 ≤ gl) (hgl' : gl ≤ 16383) (l : List Nat) :
    ∀ acc : (Nat → Grain) × List Nat × Int,
      (∀ j, (acc.1 j).active = true → ((acc.1 j).counter : Int) < gl) →
      ∀ j, ((l.foldl (fun (acc : (Nat → Grain) × List Nat × Int) (j : Nat) =>
          let s := grainSlot gl buffer wp (acc.1 j) acc.2.1 acc.2.2
          (fun j' => if j' = j then s.1 else acc.1 j', s.2.1, s.2.2)) acc).1 j).active = true →
        (((l.foldl (fun (acc : (Nat → Grain) × List Nat × Int) (j : Nat) =>
          let s := grainSlot gl buffer wp (acc.1 j) acc.2.1 acc.2.2
          (fun j' => if j' = j then s.1 else acc.1 j', s.2.1, s.2.2)) acc).1 j).counter : Int) < gl := by
  induction l with
  | nil => intro acc h j; exact h j
  | cons a l ih =>
    intro acc h j
    rw [List.foldl_cons]
    apply ih
    intro j'
    show (if j' = a then (grainSlot gl buffer wp (acc.1 a) acc.2.1 acc.2.2).1
        else acc.1 j').active = true →
      ((if j' = a then (grainSlot gl buffer wp (acc.1 a) acc.2.1 acc.2.2).1
        else acc.1 j').counter : Int) < gl
    split
    · exact grainSlot_inv gl buffer wp _ _ _ hgl hgl' (h a)
    · exact h j'

/-- One granular sample preserves well-formedness, and both emitted
containers are in-range Q15 values shifted into the high 16 bits. -/
theorem granStep_spec (st : Gran) (l r : Int) (h : granWF st) :
    granWF (granStep st l r).2 ∧
    (∃ qL, int16R qL ∧ (granStep st l r).1.1 = qL * 65536) ∧
    (∃ qR, int16R qR ∧ (granStep st l r).1.2 = qR * 65536) := by
  obtain ⟨hbuf, h1, h2, hg⟩ := h
  refine ⟨⟨?_, h1, h2, ?_⟩, ⟨_, wrap16_int16R _, rfl⟩, ⟨_, wrap16_int16R _, rfl⟩⟩
  · intro j
    show int16R ((if st.freeze_enabled then st.buffer
      else fun j => if j = st.write_pos then _ else st.buffer j) j)
    split
    · exact hbuf j
    · show int16R (if j = st.write_pos then _ else _)
      split
      · exact wrap16_int16R _
      · exact hbuf j
  · intro j
    exact grainLoop_foldl_inv st.grain_length _ _ h1 h2 _ _ hg j

/-- The granular frame loop preserves well-formedness; every output
container is a shifted in-range Q15 value. -/
theorem granProcess_spec (inp : List (Int × Int)) :
    ∀ st : Gran, granWF st →
      granWF (granProcess st inp).2 ∧
      ∀ o ∈ (granProcess st inp).1,
        (∃ qL, int16R qL ∧ o.1 = qL * 65536) ∧
        (∃ qR, int16R qR ∧ o.2 = qR * 65536) := by
  induction inp with
  | nil => intro st h; exact ⟨h, by intro o ho; exact absurd ho (by simp [granProcess])⟩
  | cons x xs ih =>
    intro st h
    obtain ⟨h2, hqL, hqR⟩ := granStep_spec st x.1 x.2 h
    obtain ⟨hrec, hout⟩ := ih _ h2
    refine ⟨hrec, ?_⟩
    intro o ho
    rcases List.mem_cons.mp ho with rfl | ho
    · exact ⟨hqL, hqR⟩
    · exact hout o ho

/-- Every container the enabled reverb loop emits is a Q15 value shifted
left by 16 (regardless of state well-formedness): its low 16 bits are 0. -/
theorem reverbRun_mod (inp : List (Int × Int)) :
    ∀ st : Reverb, ∀ o ∈ (reverbRun st inp).1,
      o.1 % 65536 = 0 ∧ o.2 % 65536 = 0 := by
  induction inp with
  | nil => intro st o ho; exact absurd ho (by simp [reverbRun])
  | cons x xs ih =>
    intro st o ho
    rcases List.mem_cons.mp ho with rfl | ho
    · exact ⟨Int.mul_emod_left _ 65536, Int.mul_emod_left _ 65536⟩
    · exact ih _ o ho

/-- Every container the granular loop emits is a Q15 value shifted left by
16 (regardless of state well-formedness): its low 16 bits are 0. -/
theorem granProcess_mod (inp : List (Int × Int)) :
    ∀ st : Gran, ∀ o ∈ (granProcess st inp).1,
      o.1 % 65536 = 0 ∧ o.2 % 65536 = 0 := by
  induction inp with
  | nil => intro st o ho; exact absurd ho (by simp [granProcess])
  | cons x xs ih =>
    intro st o ho
    rcases List.mem_cons.mp ho with rfl | ho
    · exact ⟨Int.mul_emod_left _ 65536, Int.mul_emod_left _ 65536⟩
    · exact ih _ o ho

/-- C3 (amended).  Saturation invariant, as it actually holds on the code.

For the reverb: under well-formed state (all cells in `int16_t` range, comb
feedback gains within the 0.98 clamp of `init_filters`) the two implicit
`int16_t` conversions of `comb_process` (the `fb_term >> 15` cast and the
`c->filt` store) never wrap; every other store (`comb`/allpass delay lines,
pre-delay, mix) passes through the explicit `sat16`; well-formedness is
preserved by whole blocks and every emitted container is an in-range Q15
value shifted into the high 16 bits.

For the granular engine: the Q15 extraction of an `int32_t` container and
the mono-downmix capture store never wrap; live-grain envelopes are Q15
gains in `[0, 32767]`, so the per-grain `FX_MUL` never wraps; the wet sum is
explicitly saturated; well-formedness is preserved and emitted containers
are in-range shifted Q15 values.

What does *not* hold -- forcing this amendment -- is the original claim's
"every intermediate result saturated before storage" at the granular final
dry/wet mix: `int16_t out_l = FX_MUL(in_l, dry_mix) + FX_MUL(wet_out,
wet_mix)` converts by two's-complement wrap-around and does wrap for
parameter settings whose gains sum above unity (see the counterexample). -/
theorem C3_saturation_amended :
    (∀ x : Int, int32R x → wrap16 (x / 65536) = x / 65536 ∧ int16R (x / 65536)) ∧
    (∀ (c : Comb) (x : Int), combWF c →
      wrap16 (combFbRaw c.fb (c.buf c.idx)) = combFbRaw c.fb (c.buf c.idx) ∧
      wrap16 (combFiltRaw c.filt (wrap16 (combFbRaw c.fb (c.buf c.idx)))) =
        combFiltRaw c.filt (wrap16 (combFbRaw c.fb (c.buf c.idx))) ∧
      combWF (comb_process c x).2 ∧ int16R (comb_process c x).1) ∧
    (∀ (st : Reverb) (inp : List (Int × Int)), reverbWF st →
      reverbWF (reverbRun st inp).2 ∧
      ∀ o ∈ (reverbRun st inp).1,
        (∃ qL, int16R qL ∧ o.1 = qL * 65536) ∧
        (∃ qR, int16R qR ∧ o.2 = qR * 65536)) ∧
    (∀ a b : Int, int16R a → int16R b →
      wrap16 ((a + b) / 2) = (a + b) / 2 ∧ int16R ((a + b) / 2)) ∧
    (∀ (gl : Int) (c : Nat), 512 ≤ gl → gl ≤ 16383 → (c : Int) < gl →
      0 ≤ envQ15 gl c ∧ envQ15 gl c ≤ 32767) ∧
    (∀ b env : Int, int16R b → 0 ≤ env → env ≤ 32767 →
      wrap16 ((b * env) / 32768) = (b * env) / 32768 ∧ int16R ((b * env) / 32768)) ∧
    (∀ (st : Gran) (inp : List (Int × Int)), granWF st →
      granWF (granProcess st inp).2 ∧
      ∀ o ∈ (granProcess st inp).1,
        (∃ qL, int16R qL ∧ o.1 = qL * 65536) ∧
        (∃ qR, int16R qR ∧ o.2 = qR * 65536)) := by
  refine ⟨?_, ?_, ?_, ?_, ?_, ?_, ?_⟩
  · intro x hx
    obtain ⟨h1, h2⟩ := hx
    have hlo : -32768 ≤ x / 65536 := by omega
    have hhi : x / 65536 ≤ 32767 := by omega
    exact ⟨wrap16_eq_of_int16R ⟨hlo, hhi⟩, hlo, hhi⟩
  · intro c x hc
    obtain ⟨h1, h2, h3, h4⟩ := comb_process_spec c x hc
    exact ⟨h3, h4, h2, h1⟩
  · intro st inp h
    exact reverbRun_spec inp st h
  · intro a b ha hb
    obtain ⟨ha1, ha2⟩ := ha
    obtain ⟨hb1, hb2⟩ := hb
    have hlo : -32768 ≤ (a + b) / 2 := by omega
    have hhi : (a + b) / 2 ≤ 32767 := by omega
    exact ⟨wrap16_eq_of_int16R ⟨hlo, hhi⟩, hlo, hhi⟩
  · exact fun gl c h1 h2 h3 => envQ15_bound gl c h1 h2 h3
  · intro b env hb he0 he1
    obtain ⟨hb1, hb2⟩ := hb
    have h1 : b * env ≤ 32767 * 32767 := by nlinarith
    have h2 : -(32768 * 32767) ≤ b * env := by nlinarith
    have h3 : b * env / 32768 ≤ 32767 * 32767 / 32768 :=
      Int.ediv_le_ediv (by norm_num) h1
    have h4 : (-(32768 * 32767)) / 32768 ≤ b * env / 32768 :=
      Int.ediv_le_ediv (by norm_num) h2
    have h5 : ((-(32768 * 32767)) : Int) / 32768 = -32767 := by decide
    have h6 : ((32767 * 32767) : Int) / 32768 = 32766 := by decide
    exact ⟨wrap16_eq_of_int16R ⟨by omega, by omega⟩, by omega, by omega⟩
  · intro st inp h
    exact granProcess_spec inp st h

/-- Witness for C3 (amended): applications at concrete states and inputs. -/
theorem C3_saturation_amended_witness :
    (wrap16 ((2147418112 : Int) / 65536) = 2147418112 / 65536) ∧
    reverbWF (reverbRun (init_filters fun _ => 24000) [(65537, 3)]).2 ∧
    granWF (granProcess (granInit []) [(0, 0)]).2 :=
  ⟨(C3_saturation_amended.1 2147418112 (by decide)).1,
   (C3_saturation_amended.2.2.1 (init_filters fun _ => 24000) [(65537, 3)]
     (init_filters_WF _ (fun k => ⟨show (0:Int) ≤ 24000 by decide, show (24000:Int) ≤ 32112 by decide⟩))).1,
   (C3_saturation_amended.2.2.2.2.2.2 (granInit []) [(0, 0)] (granInit_WF [])).1⟩

/-- Counterexample to C3 as stated: at full-scale input `32767 << 16` the
granular mix sum is `65532`; saturating it would emit Q15 value `32767`, but
the code's wrapping `int16_t` conversion emits `-4` (container `-262144`) --
the intermediate result is wrapped modulo `2^16`, not clamped. -/
theorem C3_counterexample :
    (granProcess granC3st [(2147418112, 2147418112)]).1 = [(-262144, -262144)] ∧
    granMixRaw 32767 32767 32767 32767 = 65532 ∧
    sat16 (granMixRaw 32767 32767 32767 32767) = 32767 ∧
    wrap16 (granMixRaw 32767 32767 32767 32767) = -4 ∧
    (-262144 : Int) = (-4) * 65536 ∧ ((-4 : Int) ≠ 32767) :=
  ⟨by decide, by decide, by decide, by decide, by decide, by decide⟩

/-- C10.  Whenever the active effect is processing (reverb enabled; the
granular engine processes unconditionally -- its enable flag is the freeze
toggle), every emitted container has its low 16 padding bits equal to zero,
because the Q15 result is written back by a 16-bit left shift; the reverb's
disabled pass-through instead returns the input containers verbatim,
preserving whatever low bits they carried. -/
theorem C10_padding_bits :
    (∀ (st : Reverb) (inp : List (Int × Int)), st.enabled = true →
      ∀ o ∈ (fx_process_reverb st inp).1, o.1 % 65536 = 0 ∧ o.2 % 65536 = 0) ∧
    (∀ (st : Gran) (inp : List (Int × Int)),
      ∀ o ∈ (granProcess st inp).1, o.1 % 65536 = 0 ∧ o.2 % 65536 = 0) ∧
    (∀ (st : Reverb) (inp : List (Int × Int)), st.enabled = false →
      (fx_process_reverb st inp).1 = inp) := by
  refine ⟨?_, ?_, ?_⟩
  · intro st inp hen o ho
    unfold fx_process_reverb at ho
    rw [hen] at ho
    exact reverbRun_mod inp st o (by simpa using ho)
  · intro st inp o ho
    exact granProcess_mod inp st o ho
  · intro st inp hen
    unfold fx_process_reverb
    rw [hen]
    rfl

/-- Witness for C10 at concrete states, inputs and outputs. -/
theorem C10_padding_bits_witness :
    ((0 : Int) % 65536 = 0 ∧ (0 : Int) % 65536 = 0) ∧
    ((0 : Int) % 65536 = 0 ∧ (0 : Int) % 65536 = 0) ∧
    (fx_process_reverb (fx_set_enable_reverb (init_filters fun _ => 24000) false)
      [(65537, 3)]).1 = [(65537, 3)] :=
  ⟨C10_padding_bits.1 (init_filters fun _ => 24000) [(0, 0)] rfl
      (0, 0) (by decide),
   C10_padding_bits.2.1 (granInit []) [(0, 0)] (0, 0) (by decide),
   C10_padding_bits.2.2 _ _ rfl⟩

end PicoReverb
